import Mathlib

/-!
Shallow embedding of the arena-shooter simulation core (two-player
split-screen shooter, modes Classic / Hardcore / Chaos).

Conventions of the embedding:
* pygame `Rect` is a record of integer left/top/width/height.
* pygame `Rect.colliderect` is a strict overlap test (touching edges do
  not collide).
* pygame `Rect.inflate(dx, dy)` grows the width by `dx` and the height by
  `dy`, keeping the integer center (`x` shifts by `dx / 2`).
* Python float arithmetic on the game's small integer-valued quantities
  is modelled by exact rational arithmetic (`ℚ`); Python `int(x)`
  truncation toward zero is `pyint`.
* Python `//` floor division on nonnegative ints coincides with `Int`
  division `/` used here.
* Euclidean `Vector2.length() <= r` tests are expressed by comparing the
  squared distance with `r ^ 2` (equivalent for `0 ≤ r`).
-/

namespace ArenaSim

/-- pygame `Rect`: integer left (`x`), top (`y`), width, height. -/
structure Rect where
  x : ℤ
  y : ℤ
  w : ℤ
  h : ℤ
deriving DecidableEq, Repr

/-- `Rect.center` of pygame: `(x + w // 2, y + h // 2)`. -/
def Rect.center (r : Rect) : ℤ × ℤ := (r.x + r.w / 2, r.y + r.h / 2)

/-- `Rect.center` as a rational point (the detonation/geometry code moves
player and portal centers into `Vector2` floats). -/
def Rect.centerQ (r : Rect) : ℚ × ℚ := ((r.x + r.w / 2 : ℤ), (r.y + r.h / 2 : ℤ))

/-- pygame `colliderect`: strict overlap in both axes. -/
def collide (a b : Rect) : Bool :=
  decide (a.x < b.x + b.w) && decide (b.x < a.x + a.w) &&
  decide (a.y < b.y + b.h) && decide (b.y < a.y + a.h)

/-- pygame `Rect.inflate(dx, dy)`. -/
def Rect.inflate (r : Rect) (dx dy : ℤ) : Rect :=
  ⟨r.x - dx / 2, r.y - dy / 2, r.w + dx, r.h + dy⟩

/-- `rects_overlap_any` (`main.py`, `classic_features.py`,
`chaos_features.py`, `hardcore_features.py`). -/
def rects_overlap_any (r : Rect) (rects : List Rect) : Bool :=
  rects.any (fun o => collide r o)

/-- `if rect.left < left: rect.left = left` — setting `rect.left` moves
the rect, keeping its size. -/
def clampLeft (m : ℤ) (r : Rect) : Rect :=
  if r.x < m then { r with x := m } else r

/-- `if rect.top < top: rect.top = top`. -/
def clampTop (m : ℤ) (r : Rect) : Rect :=
  if r.y < m then { r with y := m } else r

/-- `if rect.right > right: rect.right = right`. -/
def clampRight (world_w m : ℤ) (r : Rect) : Rect :=
  if r.x + r.w > world_w - m then { r with x := world_w - m - r.w } else r

/-- `if rect.bottom > bottom: rect.bottom = bottom`. -/
def clampBottom (world_h m : ℤ) (r : Rect) : Rect :=
  if r.y + r.h > world_h - m then { r with y := world_h - m - r.h } else r

/-- `_clamp_rect_in_arena` (`classic_features.py`, `hardcore_features.py`,
`chaos_features.py`): one pass of left / top / right / bottom clamping,
in that order. -/
def clamp_rect_in_arena (world_w world_h arena_margin : ℤ) (r : Rect) : Rect :=
  clampBottom world_h arena_margin
    (clampRight world_w arena_margin
      (clampTop arena_margin (clampLeft arena_margin r)))

/-- Python `int(q)` on a float: truncation toward zero. -/
def pyint (q : ℚ) : ℤ := if q < 0 then -(Int.floor (-q)) else Int.floor q

/-- Squared Euclidean distance between two rational points. -/
def dist2 (p q : ℚ × ℚ) : ℚ := (p.1 - q.1) ^ 2 + (p.2 - q.2) ^ 2

theorem pyint_of_nonneg {q : ℚ} (h : 0 ≤ q) : pyint q = Int.floor q := by
  simp [pyint, not_lt.mpr h]

theorem pyint_of_neg {q : ℚ} (h : q < 0) : pyint q = Int.ceil q := by
  simp [pyint, h, Int.floor_neg]

/-! ## Radial blast damage (mines, barrels, grenades)

`MineSystem._explode` (`hardcore_features.py` lines 263-274),
`BarrelSystem._apply_blast_damage` (`chaos_features.py` lines 151-158) and
`PlayScene._explode` (`play_scene.py` / `main.py`) all run, per player:

    d = (pl.pos - pos).length()
    if d > blast_radius: continue            -- no damage applied
    t = 1.0 - (d / blast_radius)
    dmg = int(min_damage + (max_damage - min_damage) * t)
    pl.take_damage(dmg)
-/

/-- Damage applied to a player at distance `d` from a detonation with
parameters `(minD, maxD, blast)`; `0` encodes "no `take_damage` call". -/
def blastDamage (minD maxD : ℤ) (blast d : ℚ) : ℤ :=
  if blast < d then 0
  else pyint ((minD : ℚ) + ((maxD : ℚ) - (minD : ℚ)) * (1 - d / blast))

/-- The spec's canonical falloff formula, written from the spec's words:
`floor(min_damage + (max_damage - min_damage) * clamp(1 - d/blast_radius, 0, 1))`. -/
def specFalloffDamage (minD maxD : ℤ) (blast d : ℚ) : ℤ :=
  Int.floor ((minD : ℚ) + ((maxD : ℚ) - (minD : ℚ)) * (max 0 (min 1 (1 - d / blast))))

/-- `Player.take_damage` (`main.py`): `hp = max(0, hp - dmg)`. -/
def take_damage (hp dmg : ℤ) : ℤ := max 0 (hp - dmg)

/-- Per-player body of `MineSystem._explode` / `_apply_blast_damage`:
the player's hp after the detonation, given their distance `d`. -/
def blastHit (minD maxD : ℤ) (blast : ℚ) (hp : ℤ) (d : ℚ) : ℤ :=
  if blast < d then hp
  else take_damage hp (pyint ((minD : ℚ) + ((maxD : ℚ) - (minD : ℚ)) * (1 - d / blast)))

theorem blast_inner_bounds (minD maxD : ℤ) (blast d : ℚ)
    (hle : minD ≤ maxD) (hb : 0 < blast) (hd0 : 0 ≤ d) (hdb : d ≤ blast) :
    (minD : ℚ) ≤ (minD : ℚ) + ((maxD : ℚ) - (minD : ℚ)) * (1 - d / blast) ∧
    (minD : ℚ) + ((maxD : ℚ) - (minD : ℚ)) * (1 - d / blast) ≤ (maxD : ℚ) := by
  have hmm : (minD : ℚ) ≤ (maxD : ℚ) := by exact_mod_cast hle
  have ht0 : 0 ≤ 1 - d / blast := by
    rw [sub_nonneg]
    exact div_le_one_of_le₀ hdb hb.le
  have ht1 : 1 - d / blast ≤ 1 := by
    have : 0 ≤ d / blast := div_nonneg hd0 hb.le
    linarith
  constructor
  · nlinarith
  · nlinarith

/-- C1 — counterexample.  The claim asserts the applied damage is `0` for
every distance `d ≥ blast_radius`; with the Hardcore mine parameters
(`min_damage = 12`, `max_damage = 48`, `blast_radius = 105`,
`hardcore_features.py` lines 263-274) the code skips a player only when
`d > blast_radius`, so at `d = blast_radius` exactly it applies
`int(12 + 36 * 0) = 12`, not `0`. -/
theorem C1_falloff_counterexample :
    blastDamage 12 48 105 105 = 12 ∧
    ¬ (∀ d : ℚ, 105 ≤ d → blastDamage 12 48 105 d = 0) := by
  have h : blastDamage 12 48 105 105 = 12 := by
    norm_num [blastDamage, pyint]
  refine ⟨h, fun hall => ?_⟩
  have := hall 105 le_rfl
  rw [h] at this
  norm_num at this

/-- C1 — amended.  For every grenade/mine/barrel detonation with
`0 ≤ min_damage ≤ max_damage` and `0 < blast_radius`, the damage applied
to a player at distance `d` is: `0` for `d > blast_radius` (strictly
beyond, not at, the radius); for `0 ≤ d ≤ blast_radius` it equals the
spec's formula `floor(min + (max - min) * clamp(1 - d/blast, 0, 1))`
(so `min_damage` at `d = blast_radius`, `max_damage` at `d = 0`); it is
monotonically non-increasing in `d`; and a detonation changes a player's
hp by exactly one application of that damage
(`hp' = max 0 (hp - damage)`), never re-applied per frame. -/
theorem C1_falloff_amended (minD maxD : ℤ) (blast : ℚ)
    (hmin : 0 ≤ minD) (hle : minD ≤ maxD) (hb : 0 < blast) :
    (∀ d : ℚ, blast < d → blastDamage minD maxD blast d = 0) ∧
    blastDamage minD maxD blast 0 = maxD ∧
    blastDamage minD maxD blast blast = minD ∧
    (∀ d : ℚ, 0 ≤ d → d ≤ blast →
        blastDamage minD maxD blast d = specFalloffDamage minD maxD blast d) ∧
    (∀ d₁ d₂ : ℚ, 0 ≤ d₁ → d₁ ≤ d₂ →
        blastDamage minD maxD blast d₂ ≤ blastDamage minD maxD blast d₁) ∧
    (∀ (hp : ℤ) (d : ℚ), 0 ≤ hp →
        blastHit minD maxD blast hp d = max 0 (hp - blastDamage minD maxD blast d)) := by
  have hmm : (minD : ℚ) ≤ (maxD : ℚ) := by exact_mod_cast hle
  have hmin' : (0 : ℚ) ≤ (minD : ℚ) := by exact_mod_cast hmin
  have hpos : ∀ d : ℚ, 0 ≤ d → d ≤ blast →
      0 ≤ (minD : ℚ) + ((maxD : ℚ) - (minD : ℚ)) * (1 - d / blast) :=
    fun d hd0 hdb =>
      hmin'.trans (blast_inner_bounds minD maxD blast d hle hb hd0 hdb).1
  have hmono : ∀ d₁ d₂ : ℚ, d₁ ≤ d₂ →
      (minD : ℚ) + ((maxD : ℚ) - (minD : ℚ)) * (1 - d₂ / blast) ≤
      (minD : ℚ) + ((maxD : ℚ) - (minD : ℚ)) * (1 - d₁ / blast) := by
    intro d₁ d₂ h12
    have h1 : d₁ / blast ≤ d₂ / blast :=
      div_le_div_of_nonneg_right h12 hb.le
    have h2 := mul_le_mul_of_nonneg_left (sub_le_sub_left h1 1)
      (by linarith : (0 : ℚ) ≤ (maxD : ℚ) - (minD : ℚ))
    linarith
  refine ⟨?_, ?_, ?_, ?_, ?_, ?_⟩
  · intro d hd
    simp [blastDamage, hd]
  · have h0 : ¬ (blast < 0) := not_lt.mpr hb.le
    rw [blastDamage, if_neg h0]
    have : (minD : ℚ) + ((maxD : ℚ) - (minD : ℚ)) * (1 - 0 / blast) = (maxD : ℚ) := by
      field_simp
    rw [this, pyint_of_nonneg (le_trans hmin' hmm), Int.floor_intCast]
  · have h0 : ¬ (blast < blast) := lt_irrefl blast
    rw [blastDamage, if_neg h0]
    have : (minD : ℚ) + ((maxD : ℚ) - (minD : ℚ)) * (1 - blast / blast) = (minD : ℚ) := by
      field_simp
    rw [this, pyint_of_nonneg hmin', Int.floor_intCast]
  · intro d hd0 hdb
    have h0 : ¬ (blast < d) := not_lt.mpr hdb
    have ht0 : 0 ≤ 1 - d / blast := by
      rw [sub_nonneg]; exact div_le_one_of_le₀ hdb hb.le
    have ht1 : 1 - d / blast ≤ 1 := by
      have : 0 ≤ d / blast := div_nonneg hd0 hb.le
      linarith
    rw [blastDamage, if_neg h0, specFalloffDamage, pyint_of_nonneg (hpos d hd0 hdb)]
    congr 2
    rw [min_eq_right ht1, max_eq_right ht0]
  · intro d₁ d₂ hd1 h12
    by_cases h2 : blast < d₂
    · rw [blastDamage, if_pos h2]
      by_cases h1 : blast < d₁
      · rw [blastDamage, if_pos h1]
      · rw [blastDamage, if_neg h1,
            pyint_of_nonneg (hpos d₁ hd1 (not_lt.mp h1))]
        exact Int.floor_nonneg.mpr (hpos d₁ hd1 (not_lt.mp h1))
    · have h1 : ¬ (blast < d₁) := not_lt.mpr (h12.trans (not_lt.mp h2))
      rw [blastDamage, if_neg h2, blastDamage, if_neg h1,
          pyint_of_nonneg (hpos d₂ (hd1.trans h12) (not_lt.mp h2)),
          pyint_of_nonneg (hpos d₁ hd1 (not_lt.mp h1))]
      exact Int.floor_le_floor (hmono d₁ d₂ h12)
  · intro hp d hhp
    by_cases h : blast < d
    · rw [blastHit, if_pos h, blastDamage, if_pos h]
      omega
    · rw [blastHit, if_neg h, blastDamage, if_neg h, take_damage]

/-- Witness for `C1_falloff_amended`, at the Hardcore mine parameters:
damage at the detonation point is the full `max_damage = 48`. -/
theorem C1_falloff_amended_witness : blastDamage 12 48 105 0 = 48 :=
  (C1_falloff_amended 12 48 105 (by norm_num) (by norm_num) (by norm_num)).2.1

/-! ## Explosive barrels and the chain reaction (Chaos)

`BarrelSystem` (`chaos_features.py`).  A barrel is its rect; the system's
state is the list of live barrels.  `explode_at(pos)` applies blast damage
at `pos`, collects every live barrel whose center is within `chain_radius`
of `pos` into `chain`, then removes each chained barrel and applies blast
damage at its own center — without calling `explode_at` on it again. -/

/-- `(Vector2(b.rect.center) - pos).length() <= chain_radius`
(`chaos_features.py` line 169), in squared form. -/
def inChain (chain : ℚ) (pos : ℚ × ℚ) (r : Rect) : Bool :=
  decide (dist2 r.centerQ pos ≤ chain ^ 2)

/-- One iteration of the chain loop in `BarrelSystem.explode_at`
(`chaos_features.py` lines 174-179): if the barrel is still live it is
removed and a damage event at its own center is recorded. -/
def chainStep (st : List Rect × List (ℚ × ℚ)) (b : Rect) :
    List Rect × List (ℚ × ℚ) :=
  if b ∈ st.1 then (st.1.erase b, st.2 ++ [b.centerQ]) else st

/-- `BarrelSystem.explode_at` (`chaos_features.py` lines 160-179) on the
live-barrel list: returns the remaining barrels and the ordered list of
centers at which `_apply_blast_damage` runs (the original `pos` first,
then each chained barrel's center). -/
def explode_at (chain : ℚ) (pos : ℚ × ℚ) (barrels : List Rect) :
    List Rect × List (ℚ × ℚ) :=
  (barrels.filter (inChain chain pos)).foldl chainStep (barrels, [pos])

/-- `BarrelSystem.handle_bullet_hit` (`chaos_features.py` lines 181-192):
the first barrel the bullet rect collides with is removed from the list
*before* `explode_at` runs at its center; `none` means no barrel was hit. -/
def handle_bullet_hit (chain : ℚ) (bullet : Rect) (barrels : List Rect) :
    Option (List Rect × List (ℚ × ℚ)) :=
  match barrels.find? (fun b => collide bullet b) with
  | none => none
  | some b => some (explode_at chain b.centerQ (barrels.erase b))

theorem chain_foldl (L : List Rect) : ∀ (bs : List Rect) (acc : List (ℚ × ℚ)),
    L.Nodup → (∀ b ∈ L, b ∈ bs) →
    L.foldl chainStep (bs, acc) = (bs.diff L, acc ++ L.map Rect.centerQ) := by
  induction L with
  | nil => intro bs acc _ _; simp
  | cons b L ih =>
    intro bs acc hnd hsub
    have hb : b ∈ bs := hsub b (List.mem_cons_self b L)
    rw [List.foldl_cons]
    have hstep : chainStep (bs, acc) b = (bs.erase b, acc ++ [b.centerQ]) := by
      simp [chainStep, hb]
    rw [hstep, ih (bs.erase b) (acc ++ [b.centerQ]) (List.nodup_cons.mp hnd).2 ?_]
    · simp [List.diff_cons]
    · intro r hr
      have hne : r ≠ b := fun h => (List.nodup_cons.mp hnd).1 (h ▸ hr)
      exact (List.mem_erase_of_ne hne).mpr (hsub r (List.mem_cons_of_mem b hr))

theorem diff_filter_eq_filter_not (p : Rect → Bool) :
    ∀ (bs : List Rect), bs.Nodup →
      bs.diff (bs.filter p) = bs.filter (fun b => ! p b) := by
  intro bs hnd
  induction bs with
  | nil => simp
  | cons a bs ih =>
    have ha : a ∉ bs := (List.nodup_cons.mp hnd).1
    have ih' := ih (List.nodup_cons.mp hnd).2
    by_cases hp : p a
    · rw [List.filter_cons_of_pos hp, List.diff_cons, List.erase_cons_head,
          List.filter_cons_of_neg (by simp [hp]), ih']
    · have hnotin : a ∉ bs.filter p := fun h => ha (List.mem_of_mem_filter h)
      rw [List.filter_cons_of_neg (by simp [hp]),
          List.filter_cons_of_pos (by simp [hp]), List.cons_diff_of_not_mem hnotin, ih']

/-- Characterization of one `explode_at` call (helper for C2). -/
theorem explode_at_eq (chain : ℚ) (pos : ℚ × ℚ) (bs : List Rect)
    (hnd : bs.Nodup) :
    explode_at chain pos bs =
      (bs.filter (fun b => ! inChain chain pos b),
       pos :: (bs.filter (inChain chain pos)).map Rect.centerQ) := by
  rw [explode_at, chain_foldl (bs.filter (inChain chain pos)) bs [pos]
        (hnd.filter _) (fun b hb => List.mem_of_mem_filter hb),
      diff_filter_eq_filter_not _ bs hnd]
  rfl

/-- C2 — counterexample.  Three barrels in a row (Chaos barrel size
34×46, `chain_radius = 170`): centers at `(100,100)`, `(260,100)` and
`(420,100)`.  A bullet detonates the first barrel.  The second barrel is
160 ≤ 170 away, so it chains; the third barrel is 160 away from the
*second* barrel's detonation center — within chain radius of a chained
barrel's detonation — yet it is NOT detonated (it stays live and receives
no damage event), because `explode_at` computes the chain once from the
original detonation point and never recurses. -/
theorem C2_chain_counterexample :
    handle_bullet_hit 170 ⟨90, 90, 10, 4⟩
        [⟨83, 77, 34, 46⟩, ⟨243, 77, 34, 46⟩, ⟨403, 77, 34, 46⟩]
      = some ([⟨403, 77, 34, 46⟩], [(100, 100), (260, 100)]) ∧
    dist2 (Rect.centerQ ⟨403, 77, 34, 46⟩) (260, 100) ≤ 170 ^ 2 := by
  constructor
  · have hfind : List.find? (fun b => collide ⟨90, 90, 10, 4⟩ b)
        [⟨83, 77, 34, 46⟩, ⟨243, 77, 34, 46⟩, ⟨403, 77, 34, 46⟩]
        = some ⟨83, 77, 34, 46⟩ := by
      simp [List.find?, collide]
    rw [handle_bullet_hit, hfind]
    have herase : List.erase
        [(⟨83, 77, 34, 46⟩ : Rect), ⟨243, 77, 34, 46⟩, ⟨403, 77, 34, 46⟩]
        ⟨83, 77, 34, 46⟩ = [⟨243, 77, 34, 46⟩, ⟨403, 77, 34, 46⟩] := by
      simp [List.erase_cons]
    show some (explode_at 170 (Rect.centerQ ⟨83, 77, 34, 46⟩)
        (List.erase [(⟨83, 77, 34, 46⟩ : Rect), ⟨243, 77, 34, 46⟩, ⟨403, 77, 34, 46⟩]
          ⟨83, 77, 34, 46⟩)) = _
    have hpos : Rect.centerQ ⟨83, 77, 34, 46⟩ = ((100 : ℚ), (100 : ℚ)) := by
      norm_num [Rect.centerQ]
    rw [herase, hpos, explode_at_eq 170 _ _ (by decide)]
    have hB : inChain 170 ((100 : ℚ), (100 : ℚ)) ⟨243, 77, 34, 46⟩ = true := by
      simp only [inChain, dist2, Rect.centerQ, decide_eq_true_eq]
      norm_num
    have hC : inChain 170 ((100 : ℚ), (100 : ℚ)) ⟨403, 77, 34, 46⟩ = false := by
      simp only [inChain, dist2, Rect.centerQ, decide_eq_false_iff_not]
      norm_num
    rw [List.filter_cons_of_neg (by simp [hB]),
        List.filter_cons_of_pos (by simp [hC]),
        List.filter_cons_of_pos (by simp [hB]),
        List.filter_cons_of_neg (by simp [hC])]
    simp only [List.filter_nil, List.map_cons, List.map_nil]
    norm_num [Rect.centerQ]
  · simp only [dist2, Rect.centerQ]
    norm_num

/-- C2 — amended.  When a barrel detonates (by bullet hit or by an
explosion at `pos`), every *other* live barrel whose center lies within
`chain_radius` of that one original detonation point is removed and
detonates at its own center; barrels outside that radius survive
unchanged, even when they are within `chain_radius` of a chained barrel's
detonation (the chain is a single pass, not recursive).  Each barrel
detonates at most once: the chained damage events are the distinct centers
of the chained barrels, and a bullet-hit barrel is removed before the
chain is computed, so its own center appears only as the initiating
event. -/
theorem C2_chain_amended (chain : ℚ) (pos : ℚ × ℚ) (bs : List Rect)
    (hnd : bs.Nodup) :
    (explode_at chain pos bs).1 = bs.filter (fun b => ! inChain chain pos b) ∧
    (explode_at chain pos bs).2 =
        pos :: (bs.filter (inChain chain pos)).map Rect.centerQ ∧
    (∀ r ∈ bs, inChain chain pos r = true →
        r ∉ (explode_at chain pos bs).1 ∧
        r.centerQ ∈ (explode_at chain pos bs).2) ∧
    (∀ r ∈ bs, inChain chain pos r = false → r ∈ (explode_at chain pos bs).1) ∧
    ((bs.map Rect.centerQ).Nodup → ((explode_at chain pos bs).2.tail).Nodup) ∧
    (∀ bullet b, bs.find? (fun b' => collide bullet b') = some b →
        handle_bullet_hit chain bullet bs =
          some (explode_at chain b.centerQ (bs.erase b))) := by
  have heq := explode_at_eq chain pos bs hnd
  refine ⟨by rw [heq], by rw [heq], ?_, ?_, ?_, ?_⟩
  · intro r hr hin
    rw [heq]
    constructor
    · simp only [List.mem_filter, Bool.not_eq_true']
      intro h
      rw [hin] at h
      exact absurd h.2 (by simp)
    · exact List.mem_cons_of_mem pos
        (List.mem_map_of_mem Rect.centerQ (List.mem_filter.mpr ⟨hr, hin⟩))
  · intro r hr hout
    rw [heq]
    exact List.mem_filter.mpr ⟨hr, by rw [hout]; rfl⟩
  · intro hcnd
    rw [heq]
    have hsb : List.Sublist ((bs.filter (inChain chain pos)).map Rect.centerQ)
        (bs.map Rect.centerQ) := (List.filter_sublist bs).map Rect.centerQ
    exact hcnd.sublist hsb
  · intro bullet b hfind
    rw [handle_bullet_hit, hfind]

/-- Witness for `C2_chain_amended`: the three-barrel configuration of
the counterexample, detonated at the first barrel's center after its
removal — the second barrel chains and the third survives. -/
theorem C2_chain_amended_witness :
    (explode_at 170 (100, 100) [⟨243, 77, 34, 46⟩, ⟨403, 77, 34, 46⟩]).1
      = [⟨403, 77, 34, 46⟩] := by
  have h := (C2_chain_amended 170 (100, 100)
      [⟨243, 77, 34, 46⟩, ⟨403, 77, 34, 46⟩] (by decide)).1
  rw [h]
  have hB : inChain 170 ((100 : ℚ), (100 : ℚ)) ⟨243, 77, 34, 46⟩ = true := by
    simp only [inChain, dist2, Rect.centerQ, decide_eq_true_eq]
    norm_num
  have hC : inChain 170 ((100 : ℚ), (100 : ℚ)) ⟨403, 77, 34, 46⟩ = false := by
    simp only [inChain, dist2, Rect.centerQ, decide_eq_false_iff_not]
    norm_num
  rw [List.filter_cons_of_neg (by simp [hB]),
      List.filter_cons_of_pos (by simp [hC]), List.filter_nil]

/-! ## Weapon model (`main.py` class `Weapon`, lines 311-428)

State: magazine size, current magazine, reserve, fire cooldown and its
remaining timer, reload flag/timer, pellet count.  `fire` returns the new
state and the number of bullets produced (each pellet's spread direction
is irrelevant to the ammo claims). -/

structure Weapon where
  mag_size : ℤ
  mag : ℤ
  reserve : ℤ
  cooldown : ℚ
  cooldown_left : ℚ
  reloading : Bool
  reload_left : ℚ
  reload_time : ℚ
  pellets : ℕ
deriving DecidableEq, Repr

/-- `Weapon.can_fire` (`main.py` lines 368-375). -/
def Weapon.can_fire (w : Weapon) : Bool :=
  if w.reloading then false
  else if 0 < w.cooldown_left then false
  else if w.mag ≤ 0 then false
  else true

/-- `Weapon.fire` (`main.py` lines 395-428): guarded by `can_fire`;
consumes exactly 1 magazine round regardless of pellet count, resets the
cooldown timer, and produces `pellets` bullets. -/
def Weapon.fire (w : Weapon) : Weapon × ℕ :=
  if w.can_fire then
    ({ w with mag := w.mag - 1, cooldown_left := w.cooldown }, w.pellets)
  else (w, 0)

/-- `Weapon.start_reload` (`main.py` lines 377-385). -/
def Weapon.start_reload (w : Weapon) : Weapon :=
  if w.reloading then w
  else if w.mag = w.mag_size then w
  else if w.reserve ≤ 0 then w
  else { w with reloading := true, reload_left := w.reload_time }

/-- `Weapon._finish_reload` (`main.py` lines 387-393). -/
def Weapon.finish_reload (w : Weapon) : Weapon :=
  let need := w.mag_size - w.mag
  let take := min need w.reserve
  { w with mag := w.mag + take, reserve := w.reserve - take,
           reloading := false, reload_left := 0 }

/-- First half of `Weapon.update` (`main.py` lines 360-361): tick the
fire cooldown. -/
def Weapon.tickCooldown (dt : ℚ) (w : Weapon) : Weapon :=
  if 0 < w.cooldown_left
  then { w with cooldown_left := max 0 (w.cooldown_left - dt) }
  else w

/-- Second half of `Weapon.update` (`main.py` lines 363-366): tick the
reload timer and finish the reload when it reaches zero. -/
def Weapon.tickReload (dt : ℚ) (w : Weapon) : Weapon :=
  if w.reloading then
    (if max 0 (w.reload_left - dt) ≤ 0
     then Weapon.finish_reload { w with reload_left := max 0 (w.reload_left - dt) }
     else { w with reload_left := max 0 (w.reload_left - dt) })
  else w

/-- `Weapon.update` (`main.py` lines 359-366). -/
def Weapon.update (dt : ℚ) (w : Weapon) : Weapon :=
  (w.tickCooldown dt).tickReload dt

/-- The operations a caller can perform on a weapon. -/
inductive WeaponOp where
  | fire : WeaponOp
  | reload : WeaponOp
  | tick : ℚ → WeaponOp
deriving DecidableEq, Repr

def applyOp (w : Weapon) : WeaponOp → Weapon
  | WeaponOp.fire => w.fire.1
  | WeaponOp.reload => w.start_reload
  | WeaponOp.tick dt => w.update dt

def applyOps (w : Weapon) (ops : List WeaponOp) : Weapon :=
  ops.foldl applyOp w

/-- Total ammunition of a weapon. -/
def Weapon.ammo (w : Weapon) : ℤ := w.mag + w.reserve

theorem finish_reload_ammo (w : Weapon) : w.finish_reload.ammo = w.ammo := by
  simp [Weapon.finish_reload, Weapon.ammo]

theorem tickCooldown_ammo (dt : ℚ) (w : Weapon) :
    (w.tickCooldown dt).ammo = w.ammo := by
  simp only [Weapon.tickCooldown]
  split_ifs <;> rfl

theorem tickReload_ammo (dt : ℚ) (w : Weapon) :
    (w.tickReload dt).ammo = w.ammo := by
  simp only [Weapon.tickReload]
  split_ifs with h1 h2
  · rw [finish_reload_ammo]
    rfl
  · rfl
  · rfl

theorem update_ammo (dt : ℚ) (w : Weapon) :
    (w.update dt).ammo = w.ammo := by
  rw [Weapon.update, tickReload_ammo, tickCooldown_ammo]

theorem applyOp_ammo_le (w : Weapon) (op : WeaponOp) :
    (applyOp w op).ammo ≤ w.ammo := by
  cases op with
  | fire =>
    simp only [applyOp, Weapon.fire]
    split_ifs with h
    · simp only [Weapon.ammo]
      omega
    · exact le_refl _
  | reload =>
    simp only [applyOp, Weapon.start_reload]
    split_ifs with h1 h2 h3
    · exact le_refl _
    · exact le_refl _
    · exact le_refl _
    · exact le_refl _
  | tick dt =>
    exact le_of_eq (update_ammo dt w)

/-- C3.  Over any sequence of fire / start-reload / timer-tick
operations, a weapon's `mag + reserve` never increases; a successful
`fire` decreases `mag` by exactly 1 (regardless of pellet count) and
leaves `reserve` unchanged; and finishing a reload atomically transfers
`min(mag_size - mag, reserve)` rounds from reserve to magazine, leaving
`mag + reserve` unchanged. -/
theorem C3_ammo_conservation (w : Weapon) (ops : List WeaponOp) :
    (applyOps w ops).ammo ≤ w.ammo ∧
    (w.can_fire = true →
        w.fire.1.mag = w.mag - 1 ∧ w.fire.1.reserve = w.reserve ∧
        w.fire.2 = w.pellets) ∧
    w.finish_reload.mag = w.mag + min (w.mag_size - w.mag) w.reserve ∧
    w.finish_reload.reserve = w.reserve - min (w.mag_size - w.mag) w.reserve ∧
    w.finish_reload.ammo = w.ammo := by
  refine ⟨?_, ?_, ?_, ?_, finish_reload_ammo w⟩
  · induction ops generalizing w with
    | nil => exact le_refl _
    | cons op ops ih =>
      calc (applyOps (applyOp w op) ops).ammo
          ≤ (applyOp w op).ammo := ih (applyOp w op)
        _ ≤ w.ammo := applyOp_ammo_le w op
  · intro h
    simp [Weapon.fire, h]
  · simp [Weapon.finish_reload]
  · simp [Weapon.finish_reload]

/-- Witness for `C3_ammo_conservation`: the Pistol (mag 12, reserve 48)
after one fire, a reload start and a 1-second tick has 59 ≤ 60 total
rounds, and firing it consumes exactly one magazine round. -/
theorem C3_ammo_conservation_witness :
    (applyOps ⟨12, 12, 48, 22/100, 0, false, 0, 95/100, 1⟩
        [WeaponOp.fire, WeaponOp.reload, WeaponOp.tick 1]).ammo ≤ 60 ∧
    (Weapon.fire ⟨12, 12, 48, 22/100, 0, false, 0, 95/100, 1⟩).1.mag = 11 := by
  have h := C3_ammo_conservation ⟨12, 12, 48, 22/100, 0, false, 0, 95/100, 1⟩
      [WeaponOp.fire, WeaponOp.reload, WeaponOp.tick 1]
  constructor
  · exact h.1
  · have hc : Weapon.can_fire ⟨12, 12, 48, 22/100, 0, false, 0, 95/100, 1⟩ = true := by
      norm_num [Weapon.can_fire]
    have := (h.2.1 hc).1
    rw [this]
    decide

/-- C4.  Invalid weapon actions are silent no-ops: `fire` returns no
bullets and leaves the weapon state unchanged whenever the weapon is
reloading, its cooldown has not elapsed, or its magazine is empty;
`start_reload` leaves the state unchanged when the weapon is already
reloading, the magazine is full, or the reserve is empty. -/
theorem C4_invalid_action_noop (w : Weapon) :
    ((w.reloading = true ∨ 0 < w.cooldown_left ∨ w.mag = 0) →
        w.fire = (w, 0)) ∧
    ((w.reloading = true ∨ w.mag = w.mag_size ∨ w.reserve ≤ 0) →
        w.start_reload = w) := by
  constructor
  · intro h
    have hc : w.can_fire = false := by
      simp only [Weapon.can_fire]
      split_ifs with h1 h2 h3
      · rfl
      · rfl
      · rfl
      · rcases h with h | h | h
        · exact absurd h h1
        · exact absurd h h2
        · exact absurd (by omega : w.mag ≤ 0) h3
    simp [Weapon.fire, hc]
  · intro h
    simp only [Weapon.start_reload]
    split_ifs with h1 h2 h3
    · rfl
    · rfl
    · rfl
    · rcases h with h | h | h
      · exact absurd h h1
      · exact absurd h h2
      · exact absurd h h3

/-- Witness for `C4_invalid_action_noop`: a Pistol with an empty
magazine fires no bullets, and a full Pistol's reload is a no-op. -/
theorem C4_invalid_action_noop_witness :
    (Weapon.fire ⟨12, 0, 48, 22/100, 0, false, 0, 95/100, 1⟩).2 = 0 ∧
    Weapon.start_reload ⟨12, 12, 48, 22/100, 0, false, 0, 95/100, 1⟩
      = ⟨12, 12, 48, 22/100, 0, false, 0, 95/100, 1⟩ := by
  constructor
  · have h := (C4_invalid_action_noop ⟨12, 0, 48, 22/100, 0, false, 0, 95/100, 1⟩).1
      (Or.inr (Or.inr rfl))
    rw [h]
  · exact (C4_invalid_action_noop ⟨12, 12, 48, 22/100, 0, false, 0, 95/100, 1⟩).2
      (Or.inr (Or.inl rfl))

/-! ## Round controller win check

`PlayScene.update` (`play_scene.py` lines 361-368, `main.py` lines
1047-1054):

    if not self.p1.alive():   winner = p2
    elif not self.p2.alive(): winner = p1

with `Player.alive()` being `hp > 0` (`main.py` line 511-512). -/

/-- `Player.alive` (`main.py`): `hp > 0`. -/
def alive (hp : ℤ) : Bool := decide (0 < hp)

/-- The per-tick win check of `PlayScene.update`: `some i` means the
round ends with player `i` recorded as winner. -/
def checkWinner (hp1 hp2 : ℤ) : Option ℕ :=
  if ¬ (alive hp1) then some 2
  else if ¬ (alive hp2) then some 1
  else none

/-- C9 helper / C8.  The first player at `hp ≤ 0` ends the round with the
other player as winner; if both are at `hp ≤ 0` on the same tick, player
1's death is checked first, so player 2 is recorded as the winner of the
tie; the round continues only while both are alive. -/
theorem C8_tiebreak (hp1 hp2 : ℤ) :
    (hp1 ≤ 0 → checkWinner hp1 hp2 = some 2) ∧
    (0 < hp1 → hp2 ≤ 0 → checkWinner hp1 hp2 = some 1) ∧
    (hp1 ≤ 0 ∧ hp2 ≤ 0 → checkWinner hp1 hp2 = some 2) ∧
    (0 < hp1 → 0 < hp2 → checkWinner hp1 hp2 = none) := by
  refine ⟨?_, ?_, ?_, ?_⟩
  · intro h
    simp [checkWinner, alive, not_lt.mpr h]
  · intro h1 h2
    simp [checkWinner, alive, h1, not_lt.mpr h2]
  · intro h
    simp [checkWinner, alive, not_lt.mpr h.1]
  · intro h1 h2
    simp [checkWinner, alive, h1, h2]

/-- Witness for `C8_tiebreak`: both players dead on the same tick (hp 0
and hp 0) gives the win to player 2. -/
theorem C8_tiebreak_witness : checkWinner 0 0 = some 2 :=
  (C8_tiebreak 0 0).1 le_rfl

/-! ## Bullet motion quantization

`Bullet.update` (`main.py` lines 226-228):

    self.rect.x += int(self.vel.x * dt)
    self.rect.y += int(self.vel.y * dt)
-/

/-- `Bullet.update`: the bullet rect's integer position after one tick. -/
def bulletUpdate (p : ℤ × ℤ) (vx vy dt : ℚ) : ℤ × ℤ :=
  (p.1 + pyint (vx * dt), p.2 + pyint (vy * dt))

/-- `n` consecutive ticks of `Bullet.update` at constant velocity and
frame time. -/
def bulletIter (n : ℕ) (p : ℤ × ℤ) (vx vy dt : ℚ) : ℤ × ℤ :=
  match n with
  | 0 => p
  | Nat.succ m => bulletIter m (bulletUpdate p vx vy dt) vx vy dt

theorem bulletIter_fst (n : ℕ) : ∀ (p : ℤ × ℤ) (vx vy dt : ℚ),
    (bulletIter n p vx vy dt).1 = p.1 + n * pyint (vx * dt) := by
  induction n with
  | zero => intro p vx vy dt; simp [bulletIter]
  | succ m ih =>
    intro p vx vy dt
    rw [bulletIter, ih]
    simp [bulletUpdate]
    ring

theorem bulletIter_snd (n : ℕ) : ∀ (p : ℤ × ℤ) (vx vy dt : ℚ),
    (bulletIter n p vx vy dt).2 = p.2 + n * pyint (vy * dt) := by
  induction n with
  | zero => intro p vx vy dt; simp [bulletIter]
  | succ m ih =>
    intro p vx vy dt
    rw [bulletIter, ih]
    simp [bulletUpdate]
    ring

theorem pyint_eq_zero_of_abs_lt {q : ℚ} (h : |q| < 1) : pyint q = 0 := by
  rcases abs_lt.mp h with ⟨hl, hr⟩
  by_cases hq : q < 0
  · rw [pyint_of_neg hq]
    rw [Int.ceil_eq_zero_iff]
    constructor <;> [linarith; linarith]
  · rw [pyint_of_nonneg (not_lt.mp hq)]
    rw [Int.floor_eq_zero_iff]
    constructor <;> [exact not_lt.mp hq; exact hr]

/-- C9.  Bullet motion is quantized to whole pixels per tick: each tick
adds `int(vel.x*dt)` / `int(vel.y*dt)` (truncation toward zero) to the
integer rect position, the fractional part being discarded rather than
accumulated — after `n` ticks the displacement is exactly
`n * int(v*dt)`; in particular a velocity component with `|v|*dt < 1`
produces no movement on that axis on any tick, no matter how many ticks
elapse. -/
theorem C9_bullet_quantization (p : ℤ × ℤ) (vx vy dt : ℚ) (n : ℕ) :
    bulletUpdate p vx vy dt = (p.1 + pyint (vx * dt), p.2 + pyint (vy * dt)) ∧
    (0 ≤ vx * dt → pyint (vx * dt) = Int.floor (vx * dt)) ∧
    (vx * dt < 0 → pyint (vx * dt) = Int.ceil (vx * dt)) ∧
    (bulletIter n p vx vy dt).1 = p.1 + n * pyint (vx * dt) ∧
    (bulletIter n p vx vy dt).2 = p.2 + n * pyint (vy * dt) ∧
    (|vx * dt| < 1 → (bulletIter n p vx vy dt).1 = p.1) ∧
    (|vy * dt| < 1 → (bulletIter n p vx vy dt).2 = p.2) := by
  refine ⟨rfl, fun h => pyint_of_nonneg h, fun h => pyint_of_neg h,
      bulletIter_fst n p vx vy dt, bulletIter_snd n p vx vy dt, ?_, ?_⟩
  · intro h
    rw [bulletIter_fst n p vx vy dt, pyint_eq_zero_of_abs_lt h]
    ring
  · intro h
    rw [bulletIter_snd n p vx vy dt, pyint_eq_zero_of_abs_lt h]
    ring

/-- Witness for `C9_bullet_quantization`: a bullet with `vx*dt = 9/10`
(just under one pixel per frame) never moves horizontally, even after
100 frames. -/
theorem C9_bullet_quantization_witness :
    (bulletIter 100 (0, 0) (9/10) 640 1).1 = 0 := by
  have h := (C9_bullet_quantization (0, 0) (9/10) 640 1 100).2.2.2.2.2.1
  have habs : |(9/10 : ℚ) * 1| < 1 := abs_lt.mpr ⟨by norm_num, by norm_num⟩
  exact h habs

/-! ## Random free-placement search

`_find_free_rect` (`classic_features.py` lines 37-70) and
`_find_free_point` (`hardcore_features.py` lines 29-50).  Each attempt
draws `x, y` with `rng.randint` inside the margin bounds and accepts the
first candidate passing all checks.  The RNG draws are modelled as a
given list of integer pairs, one per attempt (the attempt budget is the
list's length); `randint(a, b)` guarantees each draw lies in `[a, b]`. -/

/-- The acceptance test of one `_find_free_rect` attempt
(`classic_features.py` lines 55-69): at least 6px inside the
margin-bounded arena, candidate inflated by 10 clear of all obstacles,
candidate clear of every exclusion rect inflated by 20. -/
def rectCandidateOk (world_w world_h m : ℤ) (obstacles avoid : List Rect)
    (w h : ℤ) (c : ℤ × ℤ) : Bool :=
  !(decide (c.1 < m + 6) || decide (c.1 + w > world_w - m - 6)) &&
  !(decide (c.2 < m + 6) || decide (c.2 + h > world_h - m - 6)) &&
  !(rects_overlap_any (Rect.inflate ⟨c.1, c.2, w, h⟩ 10 10) obstacles) &&
  !(avoid.any (fun a => collide ⟨c.1, c.2, w, h⟩ (a.inflate 20 20)))

/-- `_find_free_rect` (`classic_features.py`): first accepted draw, or
`none` when every attempt fails (no exception path exists). -/
def find_free_rect (world_w world_h m : ℤ) (obstacles : List Rect)
    (w h : ℤ) (avoid : List Rect) (draws : List (ℤ × ℤ)) : Option Rect :=
  (draws.find? (rectCandidateOk world_w world_h m obstacles avoid w h)).map
    (fun c => ⟨c.1, c.2, w, h⟩)

/-- The acceptance test of one `_find_free_point` attempt
(`hardcore_features.py` lines 40-49): the point's bounding square
inflated by 12 clear of all obstacles and clear of every exclusion rect
inflated by 30 (the margin distance is enforced by the draw bounds). -/
def pointCandidateOk (obstacles avoid : List Rect) (radius : ℤ)
    (c : ℤ × ℤ) : Bool :=
  !(rects_overlap_any
      (Rect.inflate ⟨c.1 - radius, c.2 - radius, radius * 2, radius * 2⟩ 12 12)
      obstacles) &&
  !(avoid.any (fun a =>
      collide ⟨c.1 - radius, c.2 - radius, radius * 2, radius * 2⟩
        (a.inflate 30 30)))

/-- `_find_free_point` (`hardcore_features.py`). -/
def find_free_point (obstacles : List Rect) (radius : ℤ)
    (avoid : List Rect) (draws : List (ℤ × ℤ)) : Option (ℤ × ℤ) :=
  draws.find? (pointCandidateOk obstacles avoid radius)

/-- The skip-on-`None` spawn loop of `MineSystem.spawn_initial`
(`hardcore_features.py` lines 242-261): one candidate stream per
configured mine; a failed search contributes nothing. -/
def spawn_initial_points (obstacles : List Rect) (radius : ℤ)
    (avoid : List Rect) (streams : List (List (ℤ × ℤ))) : List (ℤ × ℤ) :=
  streams.foldl
    (fun acc s =>
      match find_free_point obstacles radius avoid s with
      | none => acc
      | some p => acc ++ [p])
    []

theorem find_free_rect_post (world_w world_h m : ℤ) (obstacles : List Rect)
    (w h : ℤ) (avoid : List Rect) (draws : List (ℤ × ℤ)) (r : Rect)
    (hsome : find_free_rect world_w world_h m obstacles w h avoid draws = some r) :
    r.w = w ∧ r.h = h ∧
    m + 6 ≤ r.x ∧ r.x + r.w ≤ world_w - m - 6 ∧
    m + 6 ≤ r.y ∧ r.y + r.h ≤ world_h - m - 6 ∧
    (∀ o ∈ obstacles, collide (r.inflate 10 10) o = false) ∧
    (∀ a ∈ avoid, collide r (a.inflate 20 20) = false) := by
  rw [find_free_rect] at hsome
  rcases Option.map_eq_some'.mp hsome with ⟨c, hfind, hr⟩
  have hok := List.find?_some hfind
  rw [rectCandidateOk] at hok
  simp only [Bool.and_eq_true, Bool.not_eq_true', Bool.or_eq_false_iff,
    decide_eq_false_iff_not, not_lt, List.any_eq_false,
    rects_overlap_any] at hok
  obtain ⟨⟨⟨hx, hy⟩, hobst⟩, havoid⟩ := hok
  subst hr
  refine ⟨rfl, rfl, hx.1, by simpa using hx.2, hy.1, by simpa using hy.2, ?_, ?_⟩
  · intro o ho
    exact Bool.not_eq_true _ ▸ (by exact hobst o ho)
  · intro a ha
    exact Bool.not_eq_true _ ▸ (by exact havoid a ha)

theorem find_free_point_post (obstacles : List Rect) (radius : ℤ)
    (avoid : List Rect) (draws : List (ℤ × ℤ)) (p : ℤ × ℤ)
    (world_w world_h m : ℤ)
    (hdraws : ∀ c ∈ draws,
        m + radius + 10 ≤ c.1 ∧ c.1 ≤ world_w - m - radius - 10 ∧
        m + radius + 10 ≤ c.2 ∧ c.2 ≤ world_h - m - radius - 10)
    (hsome : find_free_point obstacles radius avoid draws = some p) :
    m + radius + 10 ≤ p.1 ∧ p.1 ≤ world_w - m - radius - 10 ∧
    m + radius + 10 ≤ p.2 ∧ p.2 ≤ world_h - m - radius - 10 ∧
    (∀ o ∈ obstacles, collide
        (Rect.inflate ⟨p.1 - radius, p.2 - radius, radius * 2, radius * 2⟩ 12 12)
        o = false) ∧
    (∀ a ∈ avoid, collide
        ⟨p.1 - radius, p.2 - radius, radius * 2, radius * 2⟩
        (a.inflate 30 30) = false) := by
  rw [find_free_point] at hsome
  have hmem := List.mem_of_find?_eq_some hsome
  have hok := List.find?_some hsome
  rw [pointCandidateOk] at hok
  simp only [Bool.and_eq_true, Bool.not_eq_true', List.any_eq_false,
    rects_overlap_any] at hok
  obtain ⟨hobst, havoid⟩ := hok
  obtain ⟨h1, h2, h3, h4⟩ := hdraws p hmem
  refine ⟨h1, h2, h3, h4, ?_, ?_⟩
  · intro o ho
    exact Bool.not_eq_true _ ▸ (by exact hobst o ho)
  · intro a ha
    exact Bool.not_eq_true _ ▸ (by exact havoid a ha)

theorem spawn_initial_points_sound (obstacles : List Rect) (radius : ℤ)
    (avoid : List Rect) (streams : List (List (ℤ × ℤ))) :
    (spawn_initial_points obstacles radius avoid streams).length ≤ streams.length ∧
    ∀ p ∈ spawn_initial_points obstacles radius avoid streams,
      ∃ s ∈ streams, find_free_point obstacles radius avoid s = some p := by
  suffices hgen : ∀ (acc : List (ℤ × ℤ)),
      (streams.foldl
        (fun acc s =>
          match find_free_point obstacles radius avoid s with
          | none => acc
          | some p => acc ++ [p]) acc).length ≤ acc.length + streams.length ∧
      ∀ p ∈ streams.foldl
        (fun acc s =>
          match find_free_point obstacles radius avoid s with
          | none => acc
          | some p => acc ++ [p]) acc,
        p ∈ acc ∨ ∃ s ∈ streams, find_free_point obstacles radius avoid s = some p by
    obtain ⟨hl, hm⟩ := hgen []
    refine ⟨by simpa using hl, fun p hp => ?_⟩
    rcases hm p hp with h | h
    · cases h
    · exact h
  induction streams with
  | nil => intro acc; simp [spawn_initial_points]
  | cons s streams ih =>
    intro acc
    rw [List.foldl_cons]
    cases hfp : find_free_point obstacles radius avoid s with
    | none =>
      obtain ⟨hl, hm⟩ := ih acc
      refine ⟨by simpa using hl.trans (by omega), fun p hp => ?_⟩
      rcases hm p hp with h | ⟨s', hs', h⟩
      · exact Or.inl h
      · exact Or.inr ⟨s', List.mem_cons_of_mem s hs', h⟩
    | some q =>
      obtain ⟨hl, hm⟩ := ih (acc ++ [q])
      constructor
      · calc _ ≤ (acc ++ [q]).length + streams.length := hl
          _ ≤ acc.length + (s :: streams).length := by simp; omega
      · intro p hp
        rcases hm p hp with h | ⟨s', hs', h⟩
        · rcases List.mem_append.mp h with h | h
          · exact Or.inl h
          · refine Or.inr ⟨s, List.mem_cons_self s streams, ?_⟩
            have hpq : p = q := List.mem_singleton.mp h
            rw [hfp, hpq]
        · exact Or.inr ⟨s', List.mem_cons_of_mem s hs', h⟩

/-- C5.  Every rectangle returned by the random free-placement search
lies at least 6px inside the margin-bounded arena, its 10px-inflation is
clear of every obstacle, and it is clear of every exclusion rectangle
inflated by the caller's padding (20px); every portal/mine point returned
lies at least `radius + 10` px inside the margins (hence ≥ 6px), its
bounding square's 12px-inflation is clear of every obstacle and clear of
every exclusion rect inflated by 30px; when no draw passes, both searches
return `none` (they are total functions — no exception path); and the
spawn loop skips `none` results, so it spawns at most the configured
count and only positions the search accepted. -/
theorem C5_placement (world_w world_h m : ℤ) (obstacles avoid : List Rect)
    (w h radius : ℤ) (draws pdraws : List (ℤ × ℤ))
    (streams : List (List (ℤ × ℤ)))
    (hpd : ∀ c ∈ pdraws,
        m + radius + 10 ≤ c.1 ∧ c.1 ≤ world_w - m - radius - 10 ∧
        m + radius + 10 ≤ c.2 ∧ c.2 ≤ world_h - m - radius - 10) :
    (∀ r : Rect,
        find_free_rect world_w world_h m obstacles w h avoid draws = some r →
        r.w = w ∧ r.h = h ∧
        m + 6 ≤ r.x ∧ r.x + r.w ≤ world_w - m - 6 ∧
        m + 6 ≤ r.y ∧ r.y + r.h ≤ world_h - m - 6 ∧
        (∀ o ∈ obstacles, collide (r.inflate 10 10) o = false) ∧
        (∀ a ∈ avoid, collide r (a.inflate 20 20) = false)) ∧
    (∀ p : ℤ × ℤ,
        find_free_point obstacles radius avoid pdraws = some p →
        m + radius + 10 ≤ p.1 ∧ p.1 ≤ world_w - m - radius - 10 ∧
        m + radius + 10 ≤ p.2 ∧ p.2 ≤ world_h - m - radius - 10 ∧
        (∀ o ∈ obstacles, collide
            (Rect.inflate ⟨p.1 - radius, p.2 - radius, radius * 2, radius * 2⟩
              12 12) o = false) ∧
        (∀ a ∈ avoid, collide
            ⟨p.1 - radius, p.2 - radius, radius * 2, radius * 2⟩
            (a.inflate 30 30) = false)) ∧
    ((∀ c ∈ draws, rectCandidateOk world_w world_h m obstacles avoid w h c = false) →
        find_free_rect world_w world_h m obstacles w h avoid draws = none) ∧
    ((∀ c ∈ pdraws, pointCandidateOk obstacles avoid radius c = false) →
        find_free_point obstacles radius avoid pdraws = none) ∧
    (spawn_initial_points obstacles radius avoid streams).length ≤ streams.length ∧
    (∀ p ∈ spawn_initial_points obstacles radius avoid streams,
        ∃ s ∈ streams, find_free_point obstacles radius avoid s = some p) := by
  refine ⟨?_, ?_, ?_, ?_,
    (spawn_initial_points_sound obstacles radius avoid streams).1,
    (spawn_initial_points_sound obstacles radius avoid streams).2⟩
  · intro r hr
    exact find_free_rect_post world_w world_h m obstacles w h avoid draws r hr
  · intro p hp
    exact find_free_point_post obstacles radius avoid pdraws p
      world_w world_h m hpd hp
  · intro hall
    rw [find_free_rect, List.find?_eq_none.mpr (fun c hc => by simp [hall c hc]),
        Option.map_none']
  · intro hall
    rw [find_free_point, List.find?_eq_none.mpr (fun c hc => by simp [hall c hc])]

/-- Witness for `C5_placement`: a concrete 400×300 arena with one
obstacle and one exclusion rect; the draw `(60, 60)` is accepted and the
returned 18×18 rect starts at least 6px inside the margins. -/
theorem C5_placement_witness :
    (46 : ℤ) ≤ Rect.x ⟨60, 60, 18, 18⟩ ∧
    find_free_rect 400 300 40 [⟨150, 100, 56, 80⟩] 18 18 [⟨50, 120, 60, 60⟩]
      [(60, 60)] = some ⟨60, 60, 18, 18⟩ := by
  have h := C5_placement 400 300 40 [⟨150, 100, 56, 80⟩] [⟨50, 120, 60, 60⟩]
      18 18 13 [(60, 60)] [] [] (by intro c hc; cases hc)
  have hsome : find_free_rect 400 300 40 [⟨150, 100, 56, 80⟩] 18 18
      [⟨50, 120, 60, 60⟩] [(60, 60)] = some ⟨60, 60, 18, 18⟩ := by
    rw [find_free_rect]
    have hok : rectCandidateOk 400 300 40 [⟨150, 100, 56, 80⟩] [⟨50, 120, 60, 60⟩]
        18 18 (60, 60) = true := by decide
    rw [List.find?_cons_of_pos _ hok]
    rfl
  have hx := (h.1 ⟨60, 60, 18, 18⟩ hsome).2.2.1
  exact ⟨le_trans (by norm_num) hx, hsome⟩

/-! ## Poison safe-zone (Hardcore)

`PoisonZoneSystem` (`hardcore_features.py` lines 56-109).  The safe rect
starts as the full arena minus the margin; `update` accumulates `dt` and,
when the accumulator reaches `shrink_interval`, subtracts the interval
and shrinks once: each axis loses `2 * shrink_step` (floored at the
minimum size), the pygame integer center is restored, and the rect is
re-clamped into the arena. -/

/-- `PoisonZoneSystem._shrink_once` (`hardcore_features.py` lines 92-101):
read the center, shrink both sizes (floored at the minimum), set the size,
restore the center, clamp into the arena. -/
def shrink_once (world_w world_h m step minW minH : ℤ) (r : Rect) : Rect :=
  clamp_rect_in_arena world_w world_h m
    ⟨(r.x + r.w / 2) - (max minW (r.w - step * 2)) / 2,
     (r.y + r.h / 2) - (max minH (r.h - step * 2)) / 2,
     max minW (r.w - step * 2),
     max minH (r.h - step * 2)⟩

/-- The initial safe rect (`hardcore_features.py` lines 78-82): the full
arena minus the margin. -/
def pz_init (world_w world_h m : ℤ) : Rect :=
  ⟨m, m, world_w - 2 * m, world_h - 2 * m⟩

/-- The shrink-timer part of `PoisonZoneSystem.update`
(`hardcore_features.py` lines 103-109): accumulate `dt`; if the
accumulator reaches the interval, subtract it and shrink once. -/
def pz_update (world_w world_h m step minW minH : ℤ) (interval : ℚ)
    (st : Rect × ℚ) (dt : ℚ) : Rect × ℚ :=
  if interval ≤ st.2 + dt then
    (shrink_once world_w world_h m step minW minH st.1, st.2 + dt - interval)
  else (st.1, st.2 + dt)

/-- A whole round's worth of `update` calls, from round start. -/
def pz_run (world_w world_h m step minW minH : ℤ) (interval : ℚ)
    (dts : List ℚ) : Rect × ℚ :=
  dts.foldl (pz_update world_w world_h m step minW minH interval)
    (pz_init world_w world_h m, 0)

/-- Modelled from the spec: the safe rect after `k` shrink events — each
axis at `max(min_size, initial_size - 2*k*shrink_step)`, centered at the
initial rect's (integer) center. -/
def poisonRectAfter (world_w world_h m step minW minH : ℤ) (k : ℕ) : Rect :=
  ⟨m + (world_w - 2 * m) / 2 - (max minW (world_w - 2 * m - 2 * k * step)) / 2,
   m + (world_h - 2 * m) / 2 - (max minH (world_h - 2 * m - 2 * k * step)) / 2,
   max minW (world_w - 2 * m - 2 * k * step),
   max minH (world_h - 2 * m - 2 * k * step)⟩

theorem clamp_rect_id (world_w world_h m : ℤ) (r : Rect)
    (h1 : m ≤ r.x) (h2 : m ≤ r.y)
    (h3 : r.x + r.w ≤ world_w - m) (h4 : r.y + r.h ≤ world_h - m) :
    clamp_rect_in_arena world_w world_h m r = r := by
  rw [clamp_rect_in_arena, clampLeft, if_neg (by omega), clampTop,
      if_neg (by omega), clampRight, if_neg (by omega), clampBottom,
      if_neg (by omega)]

theorem shrink_once_generic (world_w world_h m step minW minH a b : ℤ)
    (hs : 0 ≤ step)
    (hminW : 0 ≤ minW) (hminWle : minW ≤ world_w - 2 * m) (ha : a ≤ world_w - 2 * m)
    (hminH : 0 ≤ minH) (hminHle : minH ≤ world_h - 2 * m) (hb : b ≤ world_h - 2 * m) :
    shrink_once world_w world_h m step minW minH
      ⟨m + (world_w - 2 * m) / 2 - (max minW a) / 2,
       m + (world_h - 2 * m) / 2 - (max minH b) / 2,
       max minW a, max minH b⟩ =
      ⟨m + (world_w - 2 * m) / 2 - (max minW (a - step * 2)) / 2,
       m + (world_h - 2 * m) / 2 - (max minH (b - step * 2)) / 2,
       max minW (a - step * 2), max minH (b - step * 2)⟩ := by
  rw [shrink_once]
  have hwfix : max minW (max minW a - step * 2) = max minW (a - step * 2) := by
    omega
  have hhfix : max minH (max minH b - step * 2) = max minH (b - step * 2) := by
    omega
  have harg :
      (⟨(m + (world_w - 2 * m) / 2 - (max minW a) / 2 + (max minW a) / 2) -
          (max minW ((max minW a) - step * 2)) / 2,
        (m + (world_h - 2 * m) / 2 - (max minH b) / 2 + (max minH b) / 2) -
          (max minH ((max minH b) - step * 2)) / 2,
        max minW ((max minW a) - step * 2),
        max minH ((max minH b) - step * 2)⟩ : Rect) =
      ⟨m + (world_w - 2 * m) / 2 - (max minW (a - step * 2)) / 2,
       m + (world_h - 2 * m) / 2 - (max minH (b - step * 2)) / 2,
       max minW (a - step * 2), max minH (b - step * 2)⟩ := by
    rw [hwfix, hhfix]
    congr 1 <;> ring
  rw [harg]
  apply clamp_rect_id
  all_goals dsimp only
  all_goals omega

theorem shrink_once_rectAfter (world_w world_h m step minW minH : ℤ) (k : ℕ)
    (hs : 0 ≤ step)
    (hminW : 0 ≤ minW) (hminWle : minW ≤ world_w - 2 * m)
    (hminH : 0 ≤ minH) (hminHle : minH ≤ world_h - 2 * m) :
    shrink_once world_w world_h m step minW minH
      (poisonRectAfter world_w world_h m step minW minH k) =
    poisonRectAfter world_w world_h m step minW minH (k + 1) := by
  have hkstep : 0 ≤ 2 * (k : ℤ) * step := by positivity
  have h := shrink_once_generic world_w world_h m step minW minH
    (world_w - 2 * m - 2 * k * step) (world_h - 2 * m - 2 * k * step)
    hs hminW hminWle (by omega) hminH hminHle (by omega)
  rw [poisonRectAfter, h, poisonRectAfter]
  have e1 : world_w - 2 * m - 2 * (k : ℤ) * step - step * 2
      = world_w - 2 * m - 2 * ((k : ℕ) + 1 : ℕ) * step := by
    push_cast
    ring
  have e2 : world_h - 2 * m - 2 * (k : ℤ) * step - step * 2
      = world_h - 2 * m - 2 * ((k : ℕ) + 1 : ℕ) * step := by
    push_cast
    ring
  rw [e1, e2]

theorem pz_fold_inv (world_w world_h m step minW minH : ℤ) (interval : ℚ)
    (hs : 0 ≤ step)
    (hminW : 0 ≤ minW) (hminWle : minW ≤ world_w - 2 * m)
    (hminH : 0 ≤ minH) (hminHle : minH ≤ world_h - 2 * m)
    (hint : 0 < interval) :
    ∀ (dts : List ℚ) (k : ℕ) (acc : ℚ),
      (∀ d ∈ dts, 0 ≤ d ∧ d ≤ interval) → 0 ≤ acc → acc < interval →
      ∃ j : ℕ,
        dts.foldl (pz_update world_w world_h m step minW minH interval)
            (poisonRectAfter world_w world_h m step minW minH k, acc) =
          (poisonRectAfter world_w world_h m step minW minH (k + j),
           acc + dts.sum - j * interval) ∧
        0 ≤ acc + dts.sum - j * interval ∧
        acc + dts.sum - j * interval < interval := by
  intro dts
  induction dts with
  | nil =>
    intro k acc _ h0 h1
    exact ⟨0, by simp, by simpa using h0, by simpa using h1⟩
  | cons d dts ih =>
    intro k acc hdts h0 h1
    obtain ⟨hd0, hdI⟩ := hdts d (List.mem_cons_self d dts)
    have hdts' : ∀ x ∈ dts, 0 ≤ x ∧ x ≤ interval :=
      fun x hx => hdts x (List.mem_cons_of_mem d hx)
    rw [List.foldl_cons]
    by_cases hacc : interval ≤ acc + d
    · rw [pz_update, if_pos hacc,
          shrink_once_rectAfter world_w world_h m step minW minH k
            hs hminW hminWle hminH hminHle]
      obtain ⟨j, hrun, hlo, hhi⟩ := ih (k + 1) (acc + d - interval) hdts'
        (by linarith) (by linarith)
      refine ⟨j + 1, ?_, ?_, ?_⟩
      · rw [hrun]
        have : acc + d - interval + dts.sum - j * interval
            = acc + (d :: dts).sum - (j + 1 : ℕ) * interval := by
          push_cast
          simp [List.sum_cons]
          ring
        rw [this]
        ring_nf
      · have : acc + (d :: dts).sum - ((j : ℚ) + 1) * interval
            = acc + d - interval + dts.sum - j * interval := by
          simp [List.sum_cons]
          ring
        push_cast
        linarith [hlo, this ▸ hlo]
      · push_cast
        have heq : acc + (d + dts.sum) - ((j : ℚ) + 1) * interval
            = acc + d - interval + dts.sum - j * interval := by
          ring
        rw [List.sum_cons, heq]
        exact hhi
    · rw [pz_update, if_neg hacc]
      obtain ⟨j, hrun, hlo, hhi⟩ := ih k (acc + d) hdts'
        (by linarith) (by linarith [not_le.mp hacc])
      refine ⟨j, ?_, ?_, ?_⟩
      · rw [hrun, List.sum_cons]
        ring_nf
      · rw [List.sum_cons]
        have heq : acc + (d + dts.sum) - (j : ℚ) * interval
            = acc + d + dts.sum - j * interval := by ring
        rw [heq]
        exact hlo
      · rw [List.sum_cons]
        have heq : acc + (d + dts.sum) - (j : ℚ) * interval
            = acc + d + dts.sum - j * interval := by ring
        rw [heq]
        exact hhi

/-- C6.  The poison safe-zone starts as the full arena minus the margin.
Over any round (a list of frame times, each within one shrink interval),
the number of shrink events `k` satisfies
`k*interval ≤ elapsed < (k+1)*interval` — one shrink per
`shrink_interval` seconds of accumulated simulated time — and after `k`
shrinks each axis equals `max(min_size, initial_size - 2*k*shrink_step)`,
the (pygame integer) center equals the initial rect's center, and the
rect, re-clamped after every shrink, lies inside the arena bounds. -/
theorem C6_poison_zone (world_w world_h m step minW minH : ℤ) (interval : ℚ)
    (hs : 0 ≤ step)
    (hminW : 0 ≤ minW) (hminWle : minW ≤ world_w - 2 * m)
    (hminH : 0 ≤ minH) (hminHle : minH ≤ world_h - 2 * m)
    (hm : 0 ≤ m) (hint : 0 < interval)
    (dts : List ℚ) (hdts : ∀ d ∈ dts, 0 ≤ d ∧ d ≤ interval) :
    poisonRectAfter world_w world_h m step minW minH 0
      = pz_init world_w world_h m ∧
    ∃ k : ℕ,
      (k : ℚ) * interval ≤ dts.sum ∧
      dts.sum < ((k : ℚ) + 1) * interval ∧
      pz_run world_w world_h m step minW minH interval dts
        = (poisonRectAfter world_w world_h m step minW minH k,
           dts.sum - k * interval) ∧
      (pz_run world_w world_h m step minW minH interval dts).1.w
        = max minW (world_w - 2 * m - 2 * k * step) ∧
      (pz_run world_w world_h m step minW minH interval dts).1.h
        = max minH (world_h - 2 * m - 2 * k * step) ∧
      Rect.center (pz_run world_w world_h m step minW minH interval dts).1
        = Rect.center (pz_init world_w world_h m) ∧
      m ≤ (pz_run world_w world_h m step minW minH interval dts).1.x ∧
      (pz_run world_w world_h m step minW minH interval dts).1.x
        + (pz_run world_w world_h m step minW minH interval dts).1.w
        ≤ world_w - m ∧
      m ≤ (pz_run world_w world_h m step minW minH interval dts).1.y ∧
      (pz_run world_w world_h m step minW minH interval dts).1.y
        + (pz_run world_w world_h m step minW minH interval dts).1.h
        ≤ world_h - m := by
  have h0 : poisonRectAfter world_w world_h m step minW minH 0
      = pz_init world_w world_h m := by
    rw [poisonRectAfter, pz_init]
    congr 1 <;> push_cast <;> omega
  refine ⟨h0, ?_⟩
  obtain ⟨j, hrun, hlo, hhi⟩ := pz_fold_inv world_w world_h m step minW minH
    interval hs hminW hminWle hminH hminHle hint dts 0 0 hdts le_rfl hint
  have hrun' : pz_run world_w world_h m step minW minH interval dts
      = (poisonRectAfter world_w world_h m step minW minH j,
         dts.sum - j * interval) := by
    rw [pz_run, ← h0, hrun]
    norm_num
  have hkstep : 0 ≤ 2 * (j : ℤ) * step := by positivity
  refine ⟨j, by linarith [hlo], by push_cast at hhi ⊢; linarith [hhi],
      hrun', ?_, ?_, ?_, ?_, ?_, ?_, ?_⟩
  · rw [hrun', poisonRectAfter]
  · rw [hrun', poisonRectAfter]
  · rw [hrun', poisonRectAfter, pz_init, Rect.center, Rect.center]
    dsimp only
    rw [Prod.mk.injEq]
    constructor <;> ring
  · rw [hrun', poisonRectAfter]
    dsimp only
    omega
  · rw [hrun', poisonRectAfter]
    dsimp only
    omega
  · rw [hrun', poisonRectAfter]
    dsimp only
    omega
  · rw [hrun', poisonRectAfter]
    dsimp only
    omega

/-- Witness for `C6_poison_zone`, at the Hardcore parameters (world
1550×900, margin 40, step 26, minimum size 340×220, interval 7s) with an
empty round: the spec-shaped rect after 0 shrinks is exactly the full
arena minus the margin. -/
theorem C6_poison_zone_witness :
    poisonRectAfter 1550 900 40 26 340 220 0 = pz_init 1550 900 40 :=
  (C6_poison_zone 1550 900 40 26 340 220 7 (by norm_num) (by norm_num)
    (by norm_num) (by norm_num) (by norm_num) (by norm_num) (by norm_num)
    [] (by intro d hd; cases hd)).1

/-! ## Portal pair teleport cooldown (Classic)

`PortalPairSystem.update` (`classic_features.py` lines 265-281).  Per
tick: every player's cooldown is decremented by `dt` (floored at 0);
then a player whose cooldown is (still) positive is skipped, and a
player inside either portal's trigger radius is teleported and has their
cooldown set to `cooldown`.  One player's cooldown evolution is
independent of the other player's, so the model tracks a single player;
`inside : Bool` abstracts "the player's center is within `radius + 10`
of portal A or portal B" for that tick. -/

/-- One tick of `PortalPairSystem.update` for one player: given `(dt,
inside)` and the current cooldown, returns the new cooldown and whether
the player was teleported this tick. -/
def portalStep (cooldown : ℚ) (s : ℚ × Bool) (cd : ℚ) : ℚ × Bool :=
  if 0 < max 0 (cd - s.1) then (max 0 (cd - s.1), false)
  else if s.2 then (cooldown, true)
  else (max 0 (cd - s.1), false)

/-- The cooldown after a sequence of ticks. -/
def portalCd (cooldown : ℚ) (cd : ℚ) (steps : List (ℚ × Bool)) : ℚ :=
  steps.foldl (fun c s => (portalStep cooldown s c).1) cd

theorem portalStep_cd_le (cooldown : ℚ) (hc : 0 ≤ cooldown)
    (s : ℚ × Bool) (hdt : 0 ≤ s.1) (cd : ℚ) (hcd : 0 ≤ cd ∧ cd ≤ cooldown) :
    0 ≤ (portalStep cooldown s cd).1 ∧ (portalStep cooldown s cd).1 ≤ cooldown := by
  rw [portalStep]
  split_ifs with h1 h2
  · refine ⟨le_max_left 0 _, ?_⟩
    dsimp only
    rcases max_cases 0 (cd - s.1) with ⟨he, _⟩ | ⟨he, _⟩ <;> rw [he]
    · exact hc
    · linarith [hcd.2]
  · exact ⟨hc, le_refl cooldown⟩
  · refine ⟨le_max_left 0 _, ?_⟩
    dsimp only
    rcases max_cases 0 (cd - s.1) with ⟨he, _⟩ | ⟨he, _⟩ <;> rw [he]
    · exact hc
    · linarith [hcd.2]

theorem portalCd_ge (cooldown : ℚ) (hc : 0 ≤ cooldown) :
    ∀ (steps : List (ℚ × Bool)), (∀ s ∈ steps, 0 ≤ s.1) → ∀ (cd : ℚ), 0 ≤ cd → cd ≤ cooldown →
      cd - (steps.map Prod.fst).sum ≤ portalCd cooldown cd steps ∧
      0 ≤ portalCd cooldown cd steps ∧
      portalCd cooldown cd steps ≤ cooldown := by
  intro steps
  induction steps with
  | nil =>
    intro _ cd h0 h1
    exact ⟨by simp [portalCd], by simpa [portalCd] using h0,
      by simpa [portalCd] using h1⟩
  | cons s steps ih =>
    intro hdts cd h0 h1
    have hnext := portalStep_cd_le cooldown hc s
      (hdts s (List.mem_cons_self s steps)) cd ⟨h0, h1⟩
    have hstep_ge : cd - s.1 ≤ (portalStep cooldown s cd).1 := by
      rw [portalStep]
      split_ifs with hA hB
      · exact le_max_right 0 _
      · have : max 0 (cd - s.1) ≤ 0 := not_lt.mp hA
        have : cd - s.1 ≤ 0 := le_trans (le_max_right 0 _) this
        dsimp only
        linarith
      · exact le_max_right 0 _
    obtain ⟨hge, hge0, hle⟩ := ih (fun x hx => hdts x (List.mem_cons_of_mem s hx))
      (portalStep cooldown s cd).1 hnext.1 hnext.2
    have hrw : portalCd cooldown cd (s :: steps)
        = portalCd cooldown (portalStep cooldown s cd).1 steps := by
      rw [portalCd, List.foldl_cons, portalCd]
    refine ⟨?_, by rw [hrw]; exact hge0, by rw [hrw]; exact hle⟩
    rw [hrw, List.map_cons, List.sum_cons]
    have : cd - s.1 - (steps.map Prod.fst).sum
        ≤ (portalStep cooldown s cd).1 - (steps.map Prod.fst).sum := by
      linarith [hstep_ge]
    linarith [hge]

theorem portalStep_fire_cd (cooldown : ℚ) (s : ℚ × Bool) (cd : ℚ)
    (h : (portalStep cooldown s cd).2 = true) :
    (portalStep cooldown s cd).1 = cooldown ∧ cd ≤ s.1 := by
  rw [portalStep] at h ⊢
  split_ifs at h ⊢ with h1 h2
  have hmax : max 0 (cd - s.1) ≤ 0 := not_lt.mp h1
  have hd : cd - s.1 ≤ 0 := le_trans (le_max_right 0 _) hmax
  exact ⟨rfl, by linarith⟩

/-- C7.  After a player is teleported, that player is not teleported
again until at least `cooldown` seconds of accumulated simulated time
(the sum of the `dt`s passed to `update`) have elapsed since the
teleport, even if they stay inside a portal's trigger radius the whole
time: if the tick `si` (reached with cooldown state `portalCd cooldown 0
pre`) teleports the player, and after `mid` further ticks the tick `sj`
teleports them again, then the `dt`s of `mid` together with `sj`'s `dt`
sum to at least `cooldown`. -/
theorem C7_portal_cooldown (cooldown : ℚ) (hc : 0 ≤ cooldown)
    (pre mid : List (ℚ × Bool)) (si sj : ℚ × Bool)
    (hmid : ∀ s ∈ mid, 0 ≤ s.1)
    (h1 : (portalStep cooldown si (portalCd cooldown 0 pre)).2 = true)
    (h2 : (portalStep cooldown sj
        (portalCd cooldown
          (portalStep cooldown si (portalCd cooldown 0 pre)).1 mid)).2 = true) :
    cooldown ≤ (mid.map Prod.fst).sum + sj.1 := by
  have hfire1 := portalStep_fire_cd cooldown si (portalCd cooldown 0 pre) h1
  rw [hfire1.1] at h2
  have hmid_ge := portalCd_ge cooldown hc mid hmid cooldown hc le_rfl
  have hfire2 := portalStep_fire_cd cooldown sj
    (portalCd cooldown cooldown mid) h2
  have := hfire2.2
  linarith [hmid_ge.1]

/-- Witness for `C7_portal_cooldown`: cooldown 1s; a teleport fires, two
0.4s ticks inside the portal do not re-teleport, and a third tick of
0.3s fires again — and indeed 1 ≤ 0.4 + 0.4 + 0.3. -/
theorem C7_portal_cooldown_witness :
    (1 : ℚ) ≤ ([((4:ℚ)/10, true), ((4:ℚ)/10, true)].map Prod.fst).sum + 3/10 := by
  have h := C7_portal_cooldown 1 (by norm_num) [] [((4:ℚ)/10, true), ((4:ℚ)/10, true)]
    ((1:ℚ)/2, true) ((3:ℚ)/10, true) ?hmid ?h1 ?h2
  · exact h
  case hmid =>
    intro s hs
    simp only [List.mem_cons, List.not_mem_nil, or_false] at hs
    rcases hs with rfl | rfl <;> norm_num
  case h1 =>
    norm_num [portalCd, portalStep, max_def]
  case h2 =>
    norm_num [portalCd, portalStep, max_def]

/-! ## Portal teleport destination (Classic)

`PortalPairSystem._teleport_player` (`classic_features.py` lines
246-263): move the player's rect center to the destination portal plus a
forward offset of `±(radius + 30)` along the facing direction, clamp
into the arena; if the body hitbox then overlaps an obstacle, try eight
fixed nudge offsets around the portal center (clamping each), stopping
at the first collision-free one — or staying at the *last* tried (still
colliding) candidate when all eight fail; finally resynchronize `pos` to
the rect center. -/

/-- `Player.body_hitbox` (`main.py` lines 514-519):
`int(w * 0.45) × int(h * 0.55)` centered at the rect's integer center.
`int(w * 0.45)` is modelled as `w * 45 / 100` (exact for the game's
44×44 player rect and every nonnegative width of this size range). -/
def body_hitbox (r : Rect) : Rect :=
  ⟨(r.x + r.w / 2) - (r.w * 45 / 100) / 2,
   (r.y + r.h / 2) - (r.h * 55 / 100) / 2,
   r.w * 45 / 100,
   r.h * 55 / 100⟩

/-- pygame `rect.center = (cx, cy)`: moves the rect, keeping its size. -/
def setCenter (r : Rect) (cx cy : ℤ) : Rect :=
  ⟨cx - r.w / 2, cy - r.h / 2, r.w, r.h⟩

/-- The eight nudge offsets of `_teleport_player` (line 257). -/
def nudgeCandidates : List (ℤ × ℤ) :=
  [(0, -28), (0, 28), (28, 0), (-28, 0), (20, 20), (-20, 20), (20, -20), (-20, -20)]

/-- The nudge loop of `_teleport_player` (lines 256-261): try each
candidate center, clamping into the arena; stop at the first whose body
hitbox is clear of all obstacles; when none is, the player stays at the
last tried candidate. -/
def nudgeLoop (world_w world_h m : ℤ) (obst : List Rect) (dest : ℤ × ℤ)
    (r : Rect) : List (ℤ × ℤ) → Rect
  | [] => r
  | c :: cs =>
    if rects_overlap_any
        (body_hitbox (clamp_rect_in_arena world_w world_h m
          (setCenter r (dest.1 + c.1) (dest.2 + c.2)))) obst
    then nudgeLoop world_w world_h m obst dest
      (clamp_rect_in_arena world_w world_h m
        (setCenter r (dest.1 + c.1) (dest.2 + c.2))) cs
    else clamp_rect_in_arena world_w world_h m
      (setCenter r (dest.1 + c.1) (dest.2 + c.2))

/-- `PortalPairSystem._teleport_player`: the player's rect after the
teleport.  `fx` is `facing.x >= 0`; the forward offset is
`±(dest.radius + 30)`. -/
def teleport_player (world_w world_h m : ℤ) (obst : List Rect)
    (dest : ℤ × ℤ) (prad : ℤ) (fx : Bool) (r : Rect) : Rect :=
  if rects_overlap_any
      (body_hitbox (clamp_rect_in_arena world_w world_h m
        (setCenter r (dest.1 + (if fx then prad + 30 else -(prad + 30)))
          dest.2))) obst
  then nudgeLoop world_w world_h m obst dest
    (clamp_rect_in_arena world_w world_h m
      (setCenter r (dest.1 + (if fx then prad + 30 else -(prad + 30)))
        dest.2)) nudgeCandidates
  else clamp_rect_in_arena world_w world_h m
    (setCenter r (dest.1 + (if fx then prad + 30 else -(prad + 30))) dest.2)

/-- The rect and the resynchronized `pos`
(`pl.pos.update(pl.rect.centerx, pl.rect.centery)`, line 263). -/
def teleport_result (world_w world_h m : ℤ) (obst : List Rect)
    (dest : ℤ × ℤ) (prad : ℤ) (fx : Bool) (r : Rect) : Rect × (ℤ × ℤ) :=
  ((teleport_player world_w world_h m obst dest prad fx r),
   (teleport_player world_w world_h m obst dest prad fx r).center)

theorem setCenter_w (r : Rect) (cx cy : ℤ) : (setCenter r cx cy).w = r.w := rfl

theorem setCenter_h (r : Rect) (cx cy : ℤ) : (setCenter r cx cy).h = r.h := rfl

theorem clamp_bounds (world_w world_h m : ℤ) (r : Rect)
    (hw0 : 0 ≤ r.w) (hh0 : 0 ≤ r.h)
    (hw : r.w ≤ world_w - 2 * m) (hh : r.h ≤ world_h - 2 * m) :
    (clamp_rect_in_arena world_w world_h m r).w = r.w ∧
    (clamp_rect_in_arena world_w world_h m r).h = r.h ∧
    m ≤ (clamp_rect_in_arena world_w world_h m r).x ∧
    (clamp_rect_in_arena world_w world_h m r).x
      + (clamp_rect_in_arena world_w world_h m r).w ≤ world_w - m ∧
    m ≤ (clamp_rect_in_arena world_w world_h m r).y ∧
    (clamp_rect_in_arena world_w world_h m r).y
      + (clamp_rect_in_arena world_w world_h m r).h ≤ world_h - m := by
  obtain ⟨a, b, c, d⟩ := r
  simp only [clamp_rect_in_arena, clampLeft, clampTop, clampRight, clampBottom] at *
  split_ifs <;> simp_all <;> omega

theorem nudgeLoop_bounds (world_w world_h m : ℤ) (obst : List Rect)
    (dest : ℤ × ℤ) :
    ∀ (cs : List (ℤ × ℤ)) (r : Rect), 0 ≤ r.w → 0 ≤ r.h →
      r.w ≤ world_w - 2 * m → r.h ≤ world_h - 2 * m →
      m ≤ r.x → r.x + r.w ≤ world_w - m →
      m ≤ r.y → r.y + r.h ≤ world_h - m →
      (nudgeLoop world_w world_h m obst dest r cs).w = r.w ∧
      (nudgeLoop world_w world_h m obst dest r cs).h = r.h ∧
      m ≤ (nudgeLoop world_w world_h m obst dest r cs).x ∧
      (nudgeLoop world_w world_h m obst dest r cs).x
        + (nudgeLoop world_w world_h m obst dest r cs).w ≤ world_w - m ∧
      m ≤ (nudgeLoop world_w world_h m obst dest r cs).y ∧
      (nudgeLoop world_w world_h m obst dest r cs).y
        + (nudgeLoop world_w world_h m obst dest r cs).h ≤ world_h - m := by
  intro cs
  induction cs with
  | nil =>
    intro r hw0 hh0 hw hh h1 h2 h3 h4
    exact ⟨rfl, rfl, h1, h2, h3, h4⟩
  | cons c cs ih =>
    intro r hw0 hh0 hw hh h1 h2 h3 h4
    have hcl := clamp_bounds world_w world_h m
      (setCenter r (dest.1 + c.1) (dest.2 + c.2))
      (by rw [setCenter_w]; exact hw0) (by rw [setCenter_h]; exact hh0)
      (by rw [setCenter_w]; exact hw) (by rw [setCenter_h]; exact hh)
    rw [setCenter_w, setCenter_h] at hcl
    obtain ⟨hclw, hclh, hcl1, hcl2, hcl3, hcl4⟩ := hcl
    simp only [nudgeLoop]
    split_ifs with hov
    · have hrec := ih (clamp_rect_in_arena world_w world_h m
          (setCenter r (dest.1 + c.1) (dest.2 + c.2)))
        (by rw [hclw]; exact hw0) (by rw [hclh]; exact hh0)
        (by rw [hclw]; exact hw) (by rw [hclh]; exact hh)
        hcl1 hcl2 hcl3 hcl4
      obtain ⟨e1, e2, b1, b2, b3, b4⟩ := hrec
      exact ⟨by rw [e1, hclw], by rw [e2, hclh], b1, b2, b3, b4⟩
    · exact ⟨hclw, hclh, hcl1, hcl2, hcl3, hcl4⟩

theorem teleport_player_bounds (world_w world_h m : ℤ) (obst : List Rect)
    (dest : ℤ × ℤ) (prad : ℤ) (fx : Bool) (r : Rect)
    (hw0 : 0 ≤ r.w) (hh0 : 0 ≤ r.h)
    (hw : r.w ≤ world_w - 2 * m) (hh : r.h ≤ world_h - 2 * m) :
    (teleport_player world_w world_h m obst dest prad fx r).w = r.w ∧
    (teleport_player world_w world_h m obst dest prad fx r).h = r.h ∧
    m ≤ (teleport_player world_w world_h m obst dest prad fx r).x ∧
    (teleport_player world_w world_h m obst dest prad fx r).x
      + (teleport_player world_w world_h m obst dest prad fx r).w
      ≤ world_w - m ∧
    m ≤ (teleport_player world_w world_h m obst dest prad fx r).y ∧
    (teleport_player world_w world_h m obst dest prad fx r).y
      + (teleport_player world_w world_h m obst dest prad fx r).h
      ≤ world_h - m := by
  rw [teleport_player]
  generalize (if fx = true then prad + 30 else -(prad + 30)) = off
  have hcl := clamp_bounds world_w world_h m
    (setCenter r (dest.1 + off) dest.2)
    (by rw [setCenter_w]; exact hw0) (by rw [setCenter_h]; exact hh0)
    (by rw [setCenter_w]; exact hw) (by rw [setCenter_h]; exact hh)
  rw [setCenter_w, setCenter_h] at hcl
  obtain ⟨hclw, hclh, hcl1, hcl2, hcl3, hcl4⟩ := hcl
  split_ifs with hov
  · have hrec := nudgeLoop_bounds world_w world_h m obst dest nudgeCandidates
      (clamp_rect_in_arena world_w world_h m
        (setCenter r (dest.1 + off) dest.2))
      (by rw [hclw]; exact hw0) (by rw [hclh]; exact hh0)
      (by rw [hclw]; exact hw) (by rw [hclh]; exact hh)
      hcl1 hcl2 hcl3 hcl4
    obtain ⟨e1, e2, b1, b2, b3, b4⟩ := hrec
    exact ⟨by rw [e1, hclw], by rw [e2, hclh], b1, b2, b3, b4⟩
  · exact ⟨hclw, hclh, hcl1, hcl2, hcl3, hcl4⟩

/-- C10.  Portal teleportation never guarantees an obstacle-free
destination, but always leaves the player clamped inside the arena
margins with `pos` resynchronized to the rect center: for any world,
margin, obstacle list, destination, portal radius, facing and player
rect that fits the arena, the teleported rect keeps its size and lies
within `[margin, world - margin]` on both axes, and the returned `pos`
is the rect's center; moreover in the obstacle configuration where one
obstacle covers the whole arena interior (world 400×400, margin 40), the
offset landing position and all eight nudge candidates collide, and the
teleported player's final body hitbox still overlaps an obstacle. -/
theorem C10_teleport (world_w world_h m : ℤ) (obst : List Rect)
    (dest : ℤ × ℤ) (prad : ℤ) (fx : Bool) (r : Rect)
    (hw0 : 0 ≤ r.w) (hh0 : 0 ≤ r.h)
    (hw : r.w ≤ world_w - 2 * m) (hh : r.h ≤ world_h - 2 * m) :
    (teleport_player world_w world_h m obst dest prad fx r).w = r.w ∧
    (teleport_player world_w world_h m obst dest prad fx r).h = r.h ∧
    m ≤ (teleport_player world_w world_h m obst dest prad fx r).x ∧
    (teleport_player world_w world_h m obst dest prad fx r).x
      + (teleport_player world_w world_h m obst dest prad fx r).w
      ≤ world_w - m ∧
    m ≤ (teleport_player world_w world_h m obst dest prad fx r).y ∧
    (teleport_player world_w world_h m obst dest prad fx r).y
      + (teleport_player world_w world_h m obst dest prad fx r).h
      ≤ world_h - m ∧
    (teleport_result world_w world_h m obst dest prad fx r).2
      = (teleport_result world_w world_h m obst dest prad fx r).1.center ∧
    rects_overlap_any
      (body_hitbox (teleport_player 400 400 40 [⟨40, 40, 320, 320⟩]
        (200, 200) 22 true ⟨100, 100, 44, 44⟩))
      [⟨40, 40, 320, 320⟩] = true := by
  have hmain := teleport_player_bounds world_w world_h m obst dest prad fx r
    hw0 hh0 hw hh
  have hconc := teleport_player_bounds 400 400 40 [⟨40, 40, 320, 320⟩]
    (200, 200) 22 true ⟨100, 100, 44, 44⟩
    (by norm_num) (by norm_num) (by norm_num) (by norm_num)
  refine ⟨hmain.1, hmain.2.1, hmain.2.2.1, hmain.2.2.2.1, hmain.2.2.2.2.1,
    hmain.2.2.2.2.2, rfl, ?_⟩
  obtain ⟨e1, e2, b1, b2, b3, b4⟩ := hconc
  generalize hT : teleport_player 400 400 40 [⟨40, 40, 320, 320⟩]
      (200, 200) 22 true ⟨100, 100, 44, 44⟩ = t at e1 e2 b1 b2 b3 b4 ⊢
  obtain ⟨a, b, c, d⟩ := t
  simp only at e1 e2 b1 b2 b3 b4
  subst e1
  subst e2
  simp only [rects_overlap_any, body_hitbox, collide, List.any_cons,
    List.any_nil, Bool.or_false, Bool.and_eq_true, decide_eq_true_eq]
  norm_num
  omega

/-- Witness for `C10_teleport`: the 400×400 arena whose interior is one
big obstacle — the teleported 44×44 player stays inside the margins yet
its body hitbox still overlaps the obstacle. -/
theorem C10_teleport_witness :
    (40 : ℤ) ≤ (teleport_player 400 400 40 [⟨40, 40, 320, 320⟩]
      (200, 200) 22 true ⟨100, 100, 44, 44⟩).x ∧
    rects_overlap_any
      (body_hitbox (teleport_player 400 400 40 [⟨40, 40, 320, 320⟩]
        (200, 200) 22 true ⟨100, 100, 44, 44⟩))
      [⟨40, 40, 320, 320⟩] = true := by
  have h := C10_teleport 400 400 40 [⟨40, 40, 320, 320⟩] (200, 200) 22 true
    ⟨100, 100, 44, 44⟩ (by norm_num) (by norm_num) (by norm_num) (by norm_num)
  exact ⟨h.2.2.1, h.2.2.2.2.2.2.2⟩

end ArenaSim
